import Mathlib

/-!
Verification development for the hybrid-roster-scheduler constraint core
(`src/scheduler.py`, entry point `build_and_solve`).

Shallow embedding conventions:
* Nurse identifiers are `String`s, exactly as in the source.
* Calendar dates are modelled as epoch-day integers (`Int`): the source
  parses `YYYY-MM-DD` strings with `strptime` and generates the day list
  with `timedelta(days=i)`, so each date corresponds to a unique integer
  and the list of day strings corresponds to the integer range
  `[startD, startD + numDays)`.
* Every CP-SAT constraint the source builds is linear: a sum of
  coefficient-weighted boolean variables compared with (==, >=, <=) against
  another sum plus a constant.  `LinCon` captures exactly that shape and
  `buildCoreModel` lists the constraints in the source's order.
* The LLM (`build_codegen_prompt` + `call_llm`) is the External Rule
  Translator: an opaque collaborator, modelled as an oracle
  `String → String` from the trimmed rules text to the raw snippet.
  Likewise `exec` of the snippet is an oracle mapping the snippet and the
  current constraint list to either a runtime-error message or the model
  after execution, and the CP-SAT solver is an oracle from a constraint
  list to a status and an assignment.
-/

/-- The five shift kinds of `shift_names = ["AM", "PM", "Night", "REST", "MC"]`. -/
inductive Shift where
  | AM
  | PM
  | Night
  | REST
  | MC
deriving DecidableEq, Repr

/-- `shift_names` from `scheduler.py` line 23, in source order. -/
def shiftNames : List Shift := [.AM, .PM, .Night, .REST, .MC]

/-- The working shifts `["AM", "PM", "Night"]` used by coverage and hours rules. -/
def workShifts : List Shift := [.AM, .PM, .Night]

/-- `shift_hours = \x7b"AM": 7, "PM": 7, "Night": 10, "REST": 0, "MC": 0\x7d` (line 83). -/
def shiftHours : Shift → Int
  | .AM => 7
  | .PM => 7
  | .Night => 10
  | .REST => 0
  | .MC => 0

/-- A decision-variable key: the source's `work[n, d, s]` dictionary key. -/
structure Var where
  nurse : String
  day : Nat
  shift : Shift
deriving DecidableEq, Repr

/-- Comparison operator of a linear constraint. -/
inductive CRel where
  | eq
  | ge
  | le
deriving DecidableEq, Repr

/-- A linear constraint `eval lhs REL eval rhs + bound` over the work variables:
every `model.Add(...)` in `build_and_solve` has this shape. -/
structure LinCon where
  lhs : List (Int × Var)
  rel : CRel
  rhs : List (Int × Var)
  bound : Int
deriving DecidableEq, Repr

/-- A solver assignment: a 0/1 value for every `work[n, d, s]` variable. -/
def Sol : Type := String → Nat → Shift → Bool

/-- Boolean-to-integer coercion used when evaluating linear expressions. -/
def bi (b : Bool) : Int := if b then 1 else 0

/-- Value of a coefficient-weighted sum of variables under an assignment. -/
def evalTerms (sol : Sol) (ts : List (Int × Var)) : Int :=
  (ts.map (fun t => t.1 * bi (sol t.2.nurse t.2.day t.2.shift))).sum

/-- Whether an assignment satisfies one linear constraint. -/
def satCon (sol : Sol) (c : LinCon) : Bool :=
  match c.rel with
  | .eq => evalTerms sol c.lhs == evalTerms sol c.rhs + c.bound
  | .ge => decide (evalTerms sol c.rhs + c.bound ≤ evalTerms sol c.lhs)
  | .le => decide (evalTerms sol c.lhs ≤ evalTerms sol c.rhs + c.bound)

/-- Whether an assignment satisfies every constraint of a model. -/
def satisfiesAll (sol : Sol) (m : List LinCon) : Prop :=
  ∀ c ∈ m, satCon sol c = true

/-- The request consumed by `build_and_solve` (`input_data`).  `mcPreferences`
is the `mc_preferences` mapping nurse → declared MC dates, modelled as a total
function defaulting to `[]` exactly like `declared_mc.get(n, [])`. -/
structure SchedInput where
  seniors : List String
  juniors : List String
  startD : Int
  endD : Int
  mcPreferences : String → List Int
  minNursesPerShift : Int
  minSeniorsPerShift : Int
  minAmCoverage : Int
  minSeniorAmCoverage : Int
  maxHoursPerWeek : Int
  minHoursPerWeek : Int
  rulesText : String

/-- `nurses = seniors + juniors` (line 16). -/
def nursesOf (input : SchedInput) : List String :=
  input.seniors ++ input.juniors

/-- Number of days: `range((end - start).days + 1)` (lines 20-21).  `Int.toNat`
clamps a non-positive count to `0`, exactly as Python's `range` does. -/
def numDays (input : SchedInput) : Nat :=
  (input.endD - input.startD + 1).toNat

/-- Date (epoch day) of day index `d`: `start + timedelta(days=d)`. -/
def dateOf (input : SchedInput) (d : Nat) : Int :=
  input.startD + d

/-- Section 2b (lines 37-40): the MC constraint for one nurse and day,
`work[n, d, "MC"] == b` with `b = 1` when declared and `b = 0` otherwise. -/
def mcCon (n : String) (d : Nat) (b : Int) : LinCon :=
  ⟨[(1, ⟨n, d, .MC⟩)], .eq, [], b⟩

/-- Section 2b (lines 33-40): for every nurse and day, force MC on declared
dates and forbid it elsewhere. -/
def mcCons (input : SchedInput) : List LinCon :=
  (nursesOf input).flatMap (fun n =>
    (List.range (numDays input)).map (fun d =>
      if (input.mcPreferences n).contains (dateOf input d) then
        mcCon n d 1
      else
        mcCon n d 0))

/-- Section 3a (line 47): `sum(work[n, d, s] for s in shift_names) == 1`. -/
def singleCon (n : String) (d : Nat) : LinCon :=
  ⟨shiftNames.map (fun s => (1, ⟨n, d, s⟩)), .eq, [], 1⟩

/-- Section 3a (lines 45-47): exactly one assignment per nurse per day. -/
def singleCons (input : SchedInput) : List LinCon :=
  (nursesOf input).flatMap (fun n =>
    (List.range (numDays input)).map (fun d => singleCon n d))

/-- Section 3b (lines 52-54): `sum(work[n, d, s] for n in nurses) >= min_nurses_per_shift`. -/
def coverAllCon (input : SchedInput) (d : Nat) (s : Shift) : LinCon :=
  ⟨(nursesOf input).map (fun n => (1, ⟨n, d, s⟩)), .ge, [], input.minNursesPerShift⟩

/-- Section 3b (lines 55-57): `sum(work[n, d, s] for n in seniors) >= min_seniors_per_shift`. -/
def coverSenCon (input : SchedInput) (d : Nat) (s : Shift) : LinCon :=
  ⟨input.seniors.map (fun n => (1, ⟨n, d, s⟩)), .ge, [], input.minSeniorsPerShift⟩

/-- Section 3b (lines 50-57): both coverage minimums for every day and working shift. -/
def coverageCons (input : SchedInput) : List LinCon :=
  (List.range (numDays input)).flatMap (fun d =>
    workShifts.flatMap (fun s =>
      [coverAllCon input d s, coverSenCon input d s]))

/-- Section 3c (lines 70-73): `sum(work[n, d, "AM"] for n in nurses) * 100
>= min_am_pct * total_working`; multiplying the sums distributes the scalar
coefficients onto the individual variables, so the left side carries
coefficient 100 and the right side carries coefficient `min_am_coverage`. -/
def amPctCon (input : SchedInput) (d : Nat) : LinCon :=
  ⟨(nursesOf input).map (fun n => (100, ⟨n, d, .AM⟩)), .ge,
   (nursesOf input).flatMap (fun n =>
     workShifts.map (fun s => (input.minAmCoverage, ⟨n, d, s⟩))), 0⟩

/-- Section 3c (lines 77-80): the senior variant with `min_senior_am_coverage`. -/
def seniorAmPctCon (input : SchedInput) (d : Nat) : LinCon :=
  ⟨input.seniors.map (fun n => (100, ⟨n, d, .AM⟩)), .ge,
   input.seniors.flatMap (fun n =>
     workShifts.map (fun s => (input.minSeniorAmCoverage, ⟨n, d, s⟩))), 0⟩

/-- Section 3c, one day (lines 68-80): each percentage constraint is added
only when its percentage parameter is strictly positive. -/
def pctConsDay (input : SchedInput) (d : Nat) : List LinCon :=
  (if input.minAmCoverage > 0 then [amPctCon input d] else []) ++
  (if input.minSeniorAmCoverage > 0 then [seniorAmPctCon input d] else [])

/-- Section 3c (lines 60-80): percentage coverage constraints for all days. -/
def pctCons (input : SchedInput) : List LinCon :=
  (List.range (numDays input)).flatMap (fun d => pctConsDay input d)

/-- Hour-weighted work terms of week `w` for nurse `n`:
`shift_hours[s] * work[n, d, s] for d in range(w*7, (w+1)*7) for s in ["AM","PM","Night"]`. -/
def weekTerms (n : String) (w : Nat) : List (Int × Var) :=
  (List.range' (w * 7) 7).flatMap (fun d =>
    workShifts.map (fun s => (shiftHours s, ⟨n, d, s⟩)))

/-- Section 3d (line 94): `total <= max_h`. -/
def weeklyMaxCon (input : SchedInput) (n : String) (w : Nat) : LinCon :=
  ⟨weekTerms n w, .le, [], input.maxHoursPerWeek⟩

/-- Section 3d (line 95): `total >= min_h`. -/
def weeklyMinCon (input : SchedInput) (n : String) (w : Nat) : LinCon :=
  ⟨weekTerms n w, .ge, [], input.minHoursPerWeek⟩

/-- Section 3d (lines 82-95): weekly hour bounds for each nurse and each of the
`len(days) // 7` full weeks. -/
def weeklyCons (input : SchedInput) : List LinCon :=
  (nursesOf input).flatMap (fun n =>
    (List.range (numDays input / 7)).flatMap (fun w =>
      [weeklyMaxCon input n w, weeklyMinCon input n w]))

/-- All constraints added by sections 2b-3d of `build_and_solve`, in source order. -/
def buildCoreModel (input : SchedInput) : List LinCon :=
  mcCons input ++ singleCons input ++ coverageCons input ++
    pctCons input ++ weeklyCons input

/-- Character-list test: `p` occurs as a contiguous prefix of `s`. -/
def leadsWith : List Char → List Char → Bool
  | [], _ => true
  | _ :: _, [] => false
  | c :: p, d :: s => c == d && leadsWith p s

/-- Character-list test: `p` occurs contiguously somewhere in `s`
(Python's `p in s` on strings). -/
def occursIn (p : List Char) : List Char → Bool
  | [] => p.isEmpty
  | d :: s => leadsWith p (d :: s) || occursIn p s

/-- String form of `occursIn`: Python's `p in s` membership test. -/
def containsSub (p s : String) : Bool :=
  occursIn p.toList s.toList

/-- The `forbidden` pattern list of `build_and_solve` (line 116), verbatim. -/
def forbiddenPatterns : List String :=
  ["shift_names.index", "for d in days", "for d in days[:-1]", "for d in days[1:]"]

/-- Lines 117-119: the first forbidden pattern occurring in the snippet, if any;
`some f` means `build_and_solve` raises before executing the snippet. -/
def forbiddenHit (snippet : String) : Option String :=
  forbiddenPatterns.find? (fun f => containsSub f snippet)

/-- Python `str.strip()` on the character list: drop leading and trailing
whitespace. -/
def pyStripL (l : List Char) : List Char :=
  ((l.dropWhile Char.isWhitespace).reverse.dropWhile Char.isWhitespace).reverse

/-- Python `str.strip()` on strings. -/
def pyStrip (s : String) : String :=
  ⟨pyStripL s.toList⟩

/-- Line 111: `re.sub(r"^` ``` `(?:python)?\s*", "", snippet)` — the anchored
pattern matches at most once, at the start of the string. -/
def stripLeadFenceL (l : List Char) : List Char :=
  if leadsWith "```python".toList l then (l.drop 9).dropWhile Char.isWhitespace
  else if leadsWith "```".toList l then (l.drop 3).dropWhile Char.isWhitespace
  else l

/-- Line 112: `re.sub(r"\s*` ``` `$", "", snippet)` — removes one trailing
fence and the whitespace run before it. -/
def stripTrailFenceL (l : List Char) : List Char :=
  if leadsWith "```".toList l.reverse then
    ((l.reverse.drop 3).dropWhile Char.isWhitespace).reverse
  else l

/-- Replacement of every literal backslash-n pair by a newline character
(Python `snippet.replace(chr(92) + "n", chr(10))`). -/
def replEscL : List Char → List Char
  | '\\' :: 'n' :: t => '\n' :: replEscL t
  | c :: t => c :: replEscL t
  | [] => []

/-- Lines 113-114: replace literal backslash-n pairs by newlines when the
snippet has escaped newlines but no real ones. -/
def unescapeNewlinesL (l : List Char) : List Char :=
  if occursIn "\\n".toList l && !(l.contains '\n') then replEscL l
  else l

/-- Lines 109-114: the snippet cleaning pipeline applied to the raw translator
output (`.strip()`, fence removal, newline unescaping). -/
def cleanSnippet (raw : String) : String :=
  ⟨unescapeNewlinesL (stripTrailFenceL (stripLeadFenceL (pyStripL raw.toList)))⟩

/-- Solver status enum (`cp_model` statuses relevant to lines 141-152). -/
inductive Status where
  | OPTIMAL
  | FEASIBLE
  | INFEASIBLE
  | UNKNOWN
  | MODEL_INVALID
deriving DecidableEq, Repr

/-- The External Rule Translator oracle: trimmed rules text to raw snippet
(the composition `call_llm ∘ build_codegen_prompt`, an external collaborator). -/
def LlmFn : Type := String → String

/-- The `exec` oracle: given the cleaned snippet and the model built so far,
either a runtime-error message (the exception caught at line 132) or the
constraint list after the snippet ran. -/
def ExecFn : Type := String → List LinCon → Except String (List LinCon)

/-- The CP-SAT solver oracle: a status and an assignment for a model. -/
def SolverFn : Type := List LinCon → Status × Sol

/-- Lines 105-133: obtain the final constraint model, running the custom-rule
path only when the stripped rules text is non-empty.  An `Except.error` is a
raised `RuntimeError`. -/
def buildModelStep (input : SchedInput) (llm : LlmFn) (execO : ExecFn) :
    Except String (List LinCon) :=
  let core := buildCoreModel input
  let custom := pyStrip input.rulesText
  if custom = "" then .ok core
  else
    let snippet := cleanSnippet (llm custom)
    match forbiddenHit snippet with
    | some f =>
        .error ("LLM code contains forbidden pattern: " ++ f ++ "\n" ++ snippet)
    | none =>
        match execO snippet core with
        | .error e =>
            .error ("Error executing custom-rule code:\n" ++ snippet ++ "\n\n" ++ e)
        | .ok m => .ok m

/-- The returned dictionary (lines 143-154): the key `"s"` is always present
(`output = \x7b"s": []\x7d` at line 144); the key `"error"` is present exactly
when `error` is `some`. -/
structure Output where
  s : List (String × Int × Shift)
  error : Option String
deriving DecidableEq, Repr

/-- The key set of the returned dictionary, in insertion order. -/
def outputKeys (o : Output) : List String :=
  ["s"] ++ (match o.error with | some _ => ["error"] | none => [])

/-- One nurse-day group of the projection loop (lines 148-150): the triples
appended for nurse `n` on day `d`, in `shift_names` order. -/
def projRow (input : SchedInput) (sol : Sol) (n : String) (d : Nat) :
    List (String × Int × Shift) :=
  shiftNames.filterMap (fun s =>
    if sol n d s then some (n, dateOf input d, s) else none)

/-- Lines 146-150: the projection of a solved assignment into
`[n, days[d], s]` triples, in nurse-major, day-, shift-order. -/
def project (input : SchedInput) (sol : Sol) : List (String × Int × Shift) :=
  (nursesOf input).flatMap (fun n =>
    (List.range (numDays input)).flatMap (fun d =>
      projRow input sol n d))

/-- Lines 143-154: format the solver outcome.  On `OPTIMAL`/`FEASIBLE` the
solution is projected; otherwise `output["error"]` is set while `output["s"]`
stays present as the empty list. -/
def formatOutput (input : SchedInput) (st : Status) (sol : Sol) : Output :=
  if st = .OPTIMAL ∨ st = .FEASIBLE then
    ⟨project input sol, none⟩
  else
    ⟨[], some "No feasible solution found."⟩

/-- `build_and_solve(input_data, constraints)` (lines 10-154), parameterised by
the three external oracles.  The `constraints` parameter is kept with its
source position and arbitrary type; the body never reads it. -/
def build_and_solve {α : Type} (input : SchedInput) (llm : LlmFn)
    (execO : ExecFn) (solver : SolverFn) (constraints : α) :
    Except String Output :=
  match buildModelStep input llm execO with
  | .error e => .error e
  | .ok m =>
      let r := solver m
      .ok (formatOutput input r.1 r.2)

/-! Helper lemmas shared by the claim theorems. -/

instance (sol : Sol) (m : List LinCon) : Decidable (satisfiesAll sol m) :=
  inferInstanceAs (Decidable (∀ c ∈ m, satCon sol c = true))

theorem bi_eq_one_iff {b : Bool} : bi b = 1 ↔ b = true := by
  cases b <;> simp [bi]

theorem bi_eq_zero_iff {b : Bool} : bi b = 0 ↔ b = false := by
  cases b <;> simp [bi]

theorem evalTerms_append (sol : Sol) (a b : List (Int × Var)) :
    evalTerms sol (a ++ b) = evalTerms sol a + evalTerms sol b := by
  simp [evalTerms]

theorem satCon_eq_iff (sol : Sol) (lhs rhs : List (Int × Var)) (b : Int) :
    satCon sol ⟨lhs, .eq, rhs, b⟩ = true ↔
      evalTerms sol lhs = evalTerms sol rhs + b := by
  simp [satCon]

theorem satCon_ge_iff (sol : Sol) (lhs rhs : List (Int × Var)) (b : Int) :
    satCon sol ⟨lhs, .ge, rhs, b⟩ = true ↔
      evalTerms sol rhs + b ≤ evalTerms sol lhs := by
  simp [satCon]

theorem satCon_le_iff (sol : Sol) (lhs rhs : List (Int × Var)) (b : Int) :
    satCon sol ⟨lhs, .le, rhs, b⟩ = true ↔
      evalTerms sol lhs ≤ evalTerms sol rhs + b := by
  simp [satCon]

theorem mem_core_of_mc {input : SchedInput} {c : LinCon} (h : c ∈ mcCons input) :
    c ∈ buildCoreModel input := by
  unfold buildCoreModel; simp [List.mem_append, h]

theorem mem_core_of_single {input : SchedInput} {c : LinCon}
    (h : c ∈ singleCons input) : c ∈ buildCoreModel input := by
  unfold buildCoreModel; simp [List.mem_append, h]

theorem mem_core_of_coverage {input : SchedInput} {c : LinCon}
    (h : c ∈ coverageCons input) : c ∈ buildCoreModel input := by
  unfold buildCoreModel; simp [List.mem_append, h]

theorem mem_core_of_pct {input : SchedInput} {c : LinCon}
    (h : c ∈ pctCons input) : c ∈ buildCoreModel input := by
  unfold buildCoreModel; simp [List.mem_append, h]

theorem mem_core_of_weekly {input : SchedInput} {c : LinCon}
    (h : c ∈ weeklyCons input) : c ∈ buildCoreModel input := by
  unfold buildCoreModel; simp [List.mem_append, h]

theorem mcCon_mem {input : SchedInput} {n : String} {d : Nat}
    (hn : n ∈ nursesOf input) (hd : d < numDays input) :
    (if (input.mcPreferences n).contains (dateOf input d) then
       mcCon n d 1 else mcCon n d 0) ∈ mcCons input := by
  unfold mcCons
  exact List.mem_flatMap.mpr
    ⟨n, hn, List.mem_map.mpr ⟨d, List.mem_range.mpr hd, rfl⟩⟩

theorem singleCon_mem {input : SchedInput} {n : String} {d : Nat}
    (hn : n ∈ nursesOf input) (hd : d < numDays input) :
    singleCon n d ∈ singleCons input := by
  unfold singleCons
  exact List.mem_flatMap.mpr
    ⟨n, hn, List.mem_map.mpr ⟨d, List.mem_range.mpr hd, rfl⟩⟩

theorem coverAllCon_mem {input : SchedInput} {d : Nat} {s : Shift}
    (hd : d < numDays input) (hs : s ∈ workShifts) :
    coverAllCon input d s ∈ coverageCons input := by
  unfold coverageCons
  exact List.mem_flatMap.mpr ⟨d, List.mem_range.mpr hd,
    List.mem_flatMap.mpr ⟨s, hs, by simp⟩⟩

theorem coverSenCon_mem {input : SchedInput} {d : Nat} {s : Shift}
    (hd : d < numDays input) (hs : s ∈ workShifts) :
    coverSenCon input d s ∈ coverageCons input := by
  unfold coverageCons
  exact List.mem_flatMap.mpr ⟨d, List.mem_range.mpr hd,
    List.mem_flatMap.mpr ⟨s, hs, by simp⟩⟩

theorem amPctCon_mem {input : SchedInput} {d : Nat}
    (hd : d < numDays input) (hpos : input.minAmCoverage > 0) :
    amPctCon input d ∈ pctCons input := by
  unfold pctCons
  exact List.mem_flatMap.mpr ⟨d, List.mem_range.mpr hd, by
    simp [pctConsDay, hpos]⟩

theorem seniorAmPctCon_mem {input : SchedInput} {d : Nat}
    (hd : d < numDays input) (hpos : input.minSeniorAmCoverage > 0) :
    seniorAmPctCon input d ∈ pctCons input := by
  unfold pctCons
  exact List.mem_flatMap.mpr ⟨d, List.mem_range.mpr hd, by
    simp [pctConsDay, hpos]⟩

theorem weeklyMaxCon_mem {input : SchedInput} {n : String} {w : Nat}
    (hn : n ∈ nursesOf input) (hw : w < numDays input / 7) :
    weeklyMaxCon input n w ∈ weeklyCons input := by
  unfold weeklyCons
  exact List.mem_flatMap.mpr ⟨n, hn,
    List.mem_flatMap.mpr ⟨w, List.mem_range.mpr hw, by simp⟩⟩

theorem weeklyMinCon_mem {input : SchedInput} {n : String} {w : Nat}
    (hn : n ∈ nursesOf input) (hw : w < numDays input / 7) :
    weeklyMinCon input n w ∈ weeklyCons input := by
  unfold weeklyCons
  exact List.mem_flatMap.mpr ⟨n, hn,
    List.mem_flatMap.mpr ⟨w, List.mem_range.mpr hw, by simp⟩⟩

/-- Number of nurses from the list `l` assigned shift `s` on day `d`. -/
def shiftCount (sol : Sol) (l : List String) (d : Nat) (s : Shift) : Int :=
  (l.map (fun n => bi (sol n d s))).sum

/-- Number of nurses from the list `l` assigned any working shift on day `d`:
the value of the source's `total_working` expression. -/
def workingCount (sol : Sol) (l : List String) (d : Nat) : Int :=
  (l.map (fun n =>
    bi (sol n d .AM) + bi (sol n d .PM) + bi (sol n d .Night))).sum

theorem evalTerms_coeff_map (sol : Sol) (k : Int) (d : Nat) (s : Shift)
    (l : List String) :
    evalTerms sol (l.map (fun n => (k, (⟨n, d, s⟩ : Var)))) =
      k * shiftCount sol l d s := by
  induction l with
  | nil => simp [evalTerms, shiftCount]
  | cons a t ih =>
      simp only [evalTerms, shiftCount, List.map_cons, List.sum_cons] at ih ⊢
      rw [mul_add, ← ih]

theorem evalTerms_working_map (sol : Sol) (k : Int) (d : Nat)
    (l : List String) :
    evalTerms sol (l.flatMap (fun n =>
      workShifts.map (fun s => (k, (⟨n, d, s⟩ : Var))))) =
      k * workingCount sol l d := by
  induction l with
  | nil => simp [evalTerms, workingCount]
  | cons a t ih =>
      rw [List.flatMap_cons, evalTerms_append, ih]
      simp only [workingCount, List.map_cons, List.sum_cons]
      simp [evalTerms, workShifts]
      ring

theorem satCon_singleCon_iff (sol : Sol) (n : String) (d : Nat) :
    satCon sol (singleCon n d) = true ↔
      bi (sol n d .AM) + bi (sol n d .PM) + bi (sol n d .Night) +
        bi (sol n d .REST) + bi (sol n d .MC) = 1 := by
  simp [satCon, singleCon, evalTerms, shiftNames]
  constructor <;> intro h <;> linarith

theorem single_mc_rest {sol : Sol} {n : String} {d : Nat}
    (h : satCon sol (singleCon n d) = true) (hMC : sol n d .MC = true) :
    sol n d .AM = false ∧ sol n d .PM = false ∧
      sol n d .Night = false ∧ sol n d .REST = false := by
  rw [satCon_singleCon_iff] at h
  cases hA : sol n d .AM <;> cases hP : sol n d .PM <;>
    cases hN : sol n d .Night <;> cases hR : sol n d .REST <;>
    simp_all [bi]

theorem single_row_length {input : SchedInput} {sol : Sol} {n : String} {d : Nat}
    (h : satCon sol (singleCon n d) = true) :
    (projRow input sol n d).length = 1 := by
  rw [satCon_singleCon_iff] at h
  cases hA : sol n d .AM <;> cases hP : sol n d .PM <;>
    cases hN : sol n d .Night <;> cases hR : sol n d .REST <;>
    cases hM : sol n d .MC <;>
    simp_all [bi, projRow, shiftNames]

theorem length_flatMap_const {α β : Type} (l : List α) (f : α → List β) (k : Nat)
    (h : ∀ a ∈ l, (f a).length = k) : (l.flatMap f).length = l.length * k := by
  induction l with
  | nil => simp
  | cons a t ih =>
      rw [List.flatMap_cons, List.length_append, h a (List.mem_cons_self a t),
        ih (fun x hx => h x (List.mem_cons_of_mem a hx)), List.length_cons]
      ring

theorem satCon_mcCon_iff (sol : Sol) (n : String) (d : Nat) (b : Int) :
    satCon sol (mcCon n d b) = true ↔ bi (sol n d .MC) = b := by
  simp [satCon, mcCon, evalTerms]

/-- Hour-weighted work total of nurse `n` in the full week `w`:
7 hours per AM or PM assignment and 10 per Night, summed over the seven
days `w*7 .. w*7+6`. -/
def blockHours (sol : Sol) (n : String) (w : Nat) : Int :=
  ((List.range' (w * 7) 7).map (fun d =>
    7 * bi (sol n d .AM) + 7 * bi (sol n d .PM) + 10 * bi (sol n d .Night))).sum

theorem evalTerms_weekTerms (sol : Sol) (n : String) (w : Nat) :
    evalTerms sol (weekTerms n w) = blockHours sol n w := by
  unfold weekTerms blockHours
  generalize List.range' (w * 7) 7 = l
  induction l with
  | nil => simp [evalTerms]
  | cons a t ih =>
      rw [List.flatMap_cons, evalTerms_append, ih, List.map_cons, List.sum_cons]
      simp [evalTerms, workShifts, shiftHours]
      ring

/-- C4: in every assignment satisfying the core model, a declared
(nurse, date) leave forces `MC` and excludes every other shift, and an
undeclared pair can never be `MC`. -/
theorem mc_leave_honored (input : SchedInput) (sol : Sol)
    (hsat : satisfiesAll sol (buildCoreModel input))
    (n : String) (hn : n ∈ nursesOf input) (d : Nat) (hd : d < numDays input) :
    ((input.mcPreferences n).contains (dateOf input d) = true →
        sol n d .MC = true ∧ ∀ s : Shift, s ≠ .MC → sol n d s = false) ∧
    ((input.mcPreferences n).contains (dateOf input d) = false →
        sol n d .MC = false) := by
  have hmc := hsat _ (mem_core_of_mc (mcCon_mem hn hd))
  have hsingle := hsat _ (mem_core_of_single (singleCon_mem hn hd))
  constructor
  · intro hdecl
    rw [if_pos hdecl] at hmc
    have hMC : sol n d .MC = true :=
      bi_eq_one_iff.mp ((satCon_mcCon_iff sol n d 1).mp hmc)
    refine ⟨hMC, ?_⟩
    have hrest := single_mc_rest hsingle hMC
    intro s hs
    cases s with
    | AM => exact hrest.1
    | PM => exact hrest.2.1
    | Night => exact hrest.2.2.1
    | REST => exact hrest.2.2.2
    | MC => exact absurd rfl hs
  · intro hnodecl
    rw [if_neg (by rw [hnodecl]; exact Bool.false_ne_true)] at hmc
    exact bi_eq_zero_iff.mp ((satCon_mcCon_iff sol n d 0).mp hmc)

/-- C8: in every assignment satisfying the core model, each working shift on
each day has at least `min_nurses_per_shift` nurses and at least
`min_seniors_per_shift` seniors. -/
theorem shift_coverage_minimums (input : SchedInput) (sol : Sol)
    (hsat : satisfiesAll sol (buildCoreModel input))
    (d : Nat) (hd : d < numDays input) (s : Shift) (hs : s ∈ workShifts) :
    input.minNursesPerShift ≤ shiftCount sol (nursesOf input) d s ∧
    input.minSeniorsPerShift ≤ shiftCount sol input.seniors d s := by
  have h1 := hsat _ (mem_core_of_coverage (coverAllCon_mem hd hs))
  have h2 := hsat _ (mem_core_of_coverage (coverSenCon_mem hd hs))
  unfold coverAllCon at h1
  unfold coverSenCon at h2
  constructor
  · have := (satCon_ge_iff sol _ _ _).mp h1
    rw [evalTerms_coeff_map] at this
    simpa [evalTerms] using this
  · have := (satCon_ge_iff sol _ _ _).mp h2
    rw [evalTerms_coeff_map] at this
    simpa [evalTerms] using this

/-- C6: in every assignment satisfying the core model, each nurse's
hour-weighted total in each of the `numDays / 7` full weeks lies within
`[min_hours_per_week, max_hours_per_week]`. -/
theorem weekly_hours_within (input : SchedInput) (sol : Sol)
    (hsat : satisfiesAll sol (buildCoreModel input))
    (n : String) (hn : n ∈ nursesOf input) (w : Nat)
    (hw : w < numDays input / 7) :
    input.minHoursPerWeek ≤ blockHours sol n w ∧
      blockHours sol n w ≤ input.maxHoursPerWeek := by
  have hmax := hsat _ (mem_core_of_weekly (weeklyMaxCon_mem hn hw))
  have hmin := hsat _ (mem_core_of_weekly (weeklyMinCon_mem hn hw))
  unfold weeklyMaxCon at hmax
  unfold weeklyMinCon at hmin
  constructor
  · have := (satCon_ge_iff sol _ _ _).mp hmin
    rwa [evalTerms_weekTerms, show evalTerms sol [] = 0 from rfl, zero_add]
      at this
  · have := (satCon_le_iff sol _ _ _).mp hmax
    rwa [evalTerms_weekTerms, show evalTerms sol [] = 0 from rfl, zero_add]
      at this

/-- C7: the percentage coverage rules are exact scaled-integer inequalities —
`100 × (AM count) ≥ pct × (working count)` — enforced exactly when the
percentage parameter is positive, and absent when both parameters are zero. -/
theorem pct_coverage_scaled (input : SchedInput) (sol : Sol) (d : Nat)
    (hd : d < numDays input) :
    (input.minAmCoverage > 0 → satisfiesAll sol (buildCoreModel input) →
        input.minAmCoverage * workingCount sol (nursesOf input) d ≤
          100 * shiftCount sol (nursesOf input) d .AM) ∧
    (input.minSeniorAmCoverage > 0 → satisfiesAll sol (buildCoreModel input) →
        input.minSeniorAmCoverage * workingCount sol input.seniors d ≤
          100 * shiftCount sol input.seniors d .AM) ∧
    (input.minAmCoverage = 0 → input.minSeniorAmCoverage = 0 →
        pctCons input = []) := by
  refine ⟨fun hpos hsat => ?_, fun hpos hsat => ?_, fun h0 h0' => ?_⟩
  · have h := hsat _ (mem_core_of_pct (amPctCon_mem hd hpos))
    unfold amPctCon at h
    have := (satCon_ge_iff sol _ _ _).mp h
    rwa [evalTerms_coeff_map, evalTerms_working_map, add_zero] at this
  · have h := hsat _ (mem_core_of_pct (seniorAmPctCon_mem hd hpos))
    unfold seniorAmPctCon at h
    have := (satCon_ge_iff sol _ _ _).mp h
    rwa [evalTerms_coeff_map, evalTerms_working_map, add_zero] at this
  · unfold pctCons pctConsDay
    simp [h0, h0']

/-- C5: on a satisfying assignment the projection has exactly
`|nurses| × numDays` triples: one per nurse per day. -/
theorem solved_output_size (input : SchedInput) (sol : Sol)
    (hsat : satisfiesAll sol (buildCoreModel input)) :
    (project input sol).length = (nursesOf input).length * numDays input ∧
    ∀ n ∈ nursesOf input, ∀ d, d < numDays input →
      (projRow input sol n d).length = 1 := by
  have hrow : ∀ n ∈ nursesOf input, ∀ d, d < numDays input →
      (projRow input sol n d).length = 1 := fun n hn d hd =>
    single_row_length (hsat _ (mem_core_of_single (singleCon_mem hn hd)))
  refine ⟨?_, hrow⟩
  unfold project
  rw [length_flatMap_const _ _ (numDays input)]
  intro n hn
  rw [length_flatMap_const _ _ 1]
  · simp
  · intro d hd
    exact hrow n hn d (List.mem_range.mp hd)

theorem flatMap_congr_mem {α β : Type} {l : List α} {f g : α → List β}
    (h : ∀ a ∈ l, f a = g a) : l.flatMap f = l.flatMap g := by
  induction l with
  | nil => rfl
  | cons a t ih =>
      rw [List.flatMap_cons, List.flatMap_cons, h a (by simp),
        ih (fun x hx => h x (by simp [hx]))]

/-! Concrete instances used by witnesses and counterexamples. -/

/-- A one-nurse, one-day request with no leave, no custom rules and slack
numeric parameters. -/
def wInput : SchedInput :=
  ⟨["A"], [], 0, 0, fun _ => [], 0, 0, 0, 0, 168, 0, ""⟩

/-- A translator oracle returning the empty snippet. -/
def oLlm : LlmFn := fun _ => ""

/-- An execution oracle that adds no constraints. -/
def oExec : ExecFn := fun _ m => .ok m

/-- A solver oracle reporting `OPTIMAL` with the all-zero assignment. -/
def oSolverOpt : SolverFn := fun _ => (.OPTIMAL, fun _ _ _ => false)

/-- A solver oracle reporting `INFEASIBLE`. -/
def oSolverInf : SolverFn := fun _ => (.INFEASIBLE, fun _ _ _ => false)

/-- C9: the structured `constraints` argument is dead: `build_and_solve`
returns identical results for any two values of it, all else fixed. -/
theorem constraints_param_ignored {α : Type} (input : SchedInput)
    (llm : LlmFn) (execO : ExecFn) (solver : SolverFn) (c₁ c₂ : α) :
    build_and_solve input llm execO solver c₁ =
      build_and_solve input llm execO solver c₂ := rfl

/-- C10: `mc_preferences` entries are read only for identifiers in
`seniors ++ juniors`; two preference maps agreeing on those identifiers give
identical constraint models and identical results. -/
theorem mc_unknown_nurses_ignored {α : Type} (input : SchedInput)
    (mc₁ mc₂ : String → List Int)
    (h : ∀ n ∈ nursesOf input, mc₁ n = mc₂ n)
    (llm : LlmFn) (execO : ExecFn) (solver : SolverFn) (c : α) :
    build_and_solve { input with mcPreferences := mc₁ } llm execO solver c =
      build_and_solve { input with mcPreferences := mc₂ } llm execO solver c := by
  have hmc : mcCons { input with mcPreferences := mc₁ } =
      mcCons { input with mcPreferences := mc₂ } := by
    show (nursesOf input).flatMap (fun n =>
        (List.range (numDays input)).map (fun d =>
          if (mc₁ n).contains (dateOf input d) then mcCon n d 1
          else mcCon n d 0)) =
      (nursesOf input).flatMap (fun n =>
        (List.range (numDays input)).map (fun d =>
          if (mc₂ n).contains (dateOf input d) then mcCon n d 1
          else mcCon n d 0))
    refine flatMap_congr_mem (fun n hn => ?_)
    rw [h n hn]
  have hcore : buildCoreModel { input with mcPreferences := mc₁ } =
      buildCoreModel { input with mcPreferences := mc₂ } := by
    unfold buildCoreModel
    rw [hmc]
    rfl
  have hstep : buildModelStep { input with mcPreferences := mc₁ } llm execO =
      buildModelStep { input with mcPreferences := mc₂ } llm execO := by
    unfold buildModelStep
    rw [hcore]
  unfold build_and_solve
  rw [hstep]
  rfl

/-- C10 witness: a preference entry for the unknown nurse `"Z"` leaves the
result unchanged. -/
theorem mc_unknown_nurses_ignored_witness :
    build_and_solve { wInput with mcPreferences := fun n => if n = "Z" then [0] else [] }
        oLlm oExec oSolverOpt 0 =
      build_and_solve { wInput with mcPreferences := fun _ => [] }
        oLlm oExec oSolverOpt 0 :=
  mc_unknown_nurses_ignored wInput
    (fun n => if n = "Z" then [0] else []) (fun _ => [])
    (by decide) oLlm oExec oSolverOpt 0

/-- C3 (amended): an inverted range is not rejected — it yields an empty day
sequence, hence an empty core model with no variables referenced and no
constraints. -/
theorem inverted_range_empty_model (input : SchedInput)
    (h : input.endD < input.startD) :
    numDays input = 0 ∧ buildCoreModel input = [] := by
  have h0 : numDays input = 0 := by unfold numDays; omega
  refine ⟨h0, ?_⟩
  unfold buildCoreModel mcCons singleCons coverageCons pctCons weeklyCons
  rw [h0]
  simp

/-- An inverted-range request (`end < start`) with demanding parameters. -/
def cInput3 : SchedInput :=
  ⟨["A"], ["B"], 100, 99, fun _ => [], 1, 1, 50, 50, 40, 10, ""⟩

/-- C3 counterexample: with `end < start` the scheduler raises nothing — it
builds the empty model and returns the success shape with an empty roster
instead of failing with `InvalidRangeError`. -/
theorem inverted_range_counterexample :
    numDays cInput3 = 0 ∧ buildCoreModel cInput3 = [] ∧
      build_and_solve cInput3 oLlm oExec oSolverOpt 0 = .ok ⟨[], none⟩ :=
  ⟨rfl, rfl, by rfl⟩

/-- C3 witness for the amended theorem at the concrete inverted range. -/
theorem inverted_range_empty_model_witness :
    numDays cInput3 = 0 ∧ buildCoreModel cInput3 = [] :=
  inverted_range_empty_model cInput3 (by decide)

/-- C1 (amended): the static check rejects a snippet if and only if it
contains one of the four literal forbidden patterns; on rejection the request
fails with the forbidden-pattern error before the snippet runs — the result
does not depend on the execution or solver oracles, so no part of the
fragment executes and the core model is left untouched. -/
theorem forbidden_pattern_rejected {α : Type} (input : SchedInput)
    (llm : LlmFn) (f : String)
    (hne : ¬ pyStrip input.rulesText = "")
    (hf : forbiddenHit (cleanSnippet (llm (pyStrip input.rulesText))) = some f)
    (execO₁ execO₂ : ExecFn) (solver₁ solver₂ : SolverFn) (c₁ c₂ : α) :
    build_and_solve input llm execO₁ solver₁ c₁ =
      .error ("LLM code contains forbidden pattern: " ++ f ++ "\n" ++
        cleanSnippet (llm (pyStrip input.rulesText))) ∧
    build_and_solve input llm execO₁ solver₁ c₁ =
      build_and_solve input llm execO₂ solver₂ c₂ := by
  have hstep : ∀ execO : ExecFn, buildModelStep input llm execO =
      .error ("LLM code contains forbidden pattern: " ++ f ++ "\n" ++
        cleanSnippet (llm (pyStrip input.rulesText))) := by
    intro execO
    unfold buildModelStep
    rw [if_neg hne]
    simp only [hf]
  constructor
  · unfold build_and_solve
    rw [hstep execO₁]
  · unfold build_and_solve
    rw [hstep execO₁, hstep execO₂]

/-- A request carrying free-text custom rules. -/
def wInput1 : SchedInput :=
  ⟨["A"], [], 0, 0, fun _ => [], 0, 0, 0, 0, 168, 0, "no two night shifts in a row"⟩

/-- A translator oracle emitting a snippet that loops over the date strings —
one of the four statically forbidden patterns. -/
def badLlm : LlmFn := fun _ =>
  "for n in nurses:\n    for d in days:\n        model.Add(work[(n, d, \"AM\")] == 0)"

/-- C1 witness: the forbidden-pattern snippet is rejected before execution. -/
theorem forbidden_pattern_rejected_witness :
    build_and_solve wInput1 badLlm oExec oSolverOpt 0 =
      .error ("LLM code contains forbidden pattern: " ++ "for d in days" ++ "\n" ++
        cleanSnippet (badLlm (pyStrip wInput1.rulesText))) :=
  (forbidden_pattern_rejected wInput1 badLlm "for d in days"
    (by decide) (by decide) oExec oExec oSolverOpt oSolverOpt 0 0).1

/-- A translator snippet performing an `.index`-style lookup into the date
list — disallowed by the spec's sandbox, yet matching none of the four
forbidden patterns. -/
def idxSnippet : String :=
  "model.Add(work[(nurses[0], days.index(\"2024-01-02\"), \"AM\")] == 1)"

/-- C1 counterexample: a fragment that indexes the day list by date string
passes the static check (`forbiddenHit` yields `none`) and reaches the
execution oracle — `build_and_solve` surfaces the execution outcome instead of
rejecting the fragment beforehand. -/
theorem unsafe_rule_counterexample :
    containsSub "days.index" idxSnippet = true ∧
    forbiddenHit (cleanSnippet idxSnippet) = none ∧
    build_and_solve wInput1 (fun _ => idxSnippet)
        (fun _ _ => .error "snippet executed") oSolverOpt 0 =
      .error ("Error executing custom-rule code:\n" ++ idxSnippet ++ "\n\n" ++
        "snippet executed") :=
  ⟨by decide, by decide, by rfl⟩

/-- C2 (amended): every `Except.ok` result of `build_and_solve` has one of two
key shapes: key set exactly `["s"]` on a successful status, and key set
`["s", "error"]` with an empty `"s"` list on an unsuccessful one. -/
theorem output_key_shape {α : Type} (input : SchedInput) (llm : LlmFn)
    (execO : ExecFn) (solver : SolverFn) (c : α) (o : Output)
    (h : build_and_solve input llm execO solver c = .ok o) :
    (o.error = none ∧ outputKeys o = ["s"]) ∨
      (o.s = [] ∧ o.error.isSome = true ∧ outputKeys o = ["s", "error"]) := by
  unfold build_and_solve at h
  cases hstep : buildModelStep input llm execO with
  | error e =>
      rw [hstep] at h
      simp at h
  | ok m =>
      rw [hstep] at h
      simp only [Except.ok.injEq] at h
      subst h
      unfold formatOutput
      by_cases hst : (solver m).1 = .OPTIMAL ∨ (solver m).1 = .FEASIBLE
      · rw [if_pos hst]
        exact Or.inl ⟨rfl, rfl⟩
      · rw [if_neg hst]
        exact Or.inr ⟨rfl, rfl, rfl⟩

/-- C2 witness: the unsuccessful-solve shape, at a solver oracle reporting
`INFEASIBLE`. -/
theorem output_key_shape_witness :
    (Output.mk [] (some "No feasible solution found.")).s = [] ∧
      (Output.mk [] (some "No feasible solution found.")).error.isSome = true ∧
      outputKeys ⟨[], some "No feasible solution found."⟩ = ["s", "error"] := by
  have h := output_key_shape wInput oLlm oExec oSolverInf 0
    ⟨[], some "No feasible solution found."⟩ (by rfl)
  rcases h with ⟨h1, _⟩ | h2
  · exact absurd h1 (by simp)
  · exact h2

/-- C2 counterexample: on an unsuccessful solve the returned dictionary
contains BOTH keys — `"s"` (as the empty list) and `"error"` — so the failure
result is not an object whose only key is `"error"`, and a result with both
keys at once does occur. -/
theorem failure_shape_counterexample :
    build_and_solve wInput oLlm oExec oSolverInf 0 =
      .ok ⟨[], some "No feasible solution found."⟩ ∧
    outputKeys ⟨[], some "No feasible solution found."⟩ = ["s", "error"] :=
  ⟨by rfl, rfl⟩

/-- A one-nurse, one-day request declaring an MC leave for nurse `"A"` on the
single day of the horizon. -/
def wInput4 : SchedInput :=
  ⟨["A"], [], 0, 0, fun n => if n = "A" then [0] else [], 0, 0, 0, 0, 168, 0, ""⟩

/-- The assignment putting nurse `"A"` on `MC` on day `0`. -/
def wSol4 : Sol := fun n d s =>
  decide (n = "A") && decide (d = 0) && decide (s = Shift.MC)

/-- C4 witness: the declared leave forces `MC` and excludes `AM`. -/
theorem mc_leave_honored_witness :
    wSol4 "A" 0 Shift.MC = true ∧ wSol4 "A" 0 Shift.AM = false := by
  have h := mc_leave_honored wInput4 wSol4 (by decide) "A" (by decide) 0 (by decide)
  have h1 := h.1 (by decide)
  exact ⟨h1.1, h1.2 Shift.AM (by decide)⟩

/-- C5 witness: the projected roster of the satisfying assignment has exactly
`|nurses| × numDays` entries. -/
theorem solved_output_size_witness :
    (project wInput4 wSol4).length = (nursesOf wInput4).length * numDays wInput4 :=
  (solved_output_size wInput4 wSol4 (by decide)).1

/-- A one-nurse request spanning exactly one full week. -/
def wInput6 : SchedInput :=
  ⟨["A"], [], 0, 6, fun _ => [], 0, 0, 0, 0, 168, 0, ""⟩

/-- The all-`REST` assignment. -/
def wSolRest : Sol := fun _ _ s => decide (s = Shift.REST)

/-- C6 witness: the full-week hour total of the satisfying assignment lies
within the configured bounds. -/
theorem weekly_hours_within_witness :
    wInput6.minHoursPerWeek ≤ blockHours wSolRest "A" 0 ∧
      blockHours wSolRest "A" 0 ≤ wInput6.maxHoursPerWeek :=
  weekly_hours_within wInput6 wSolRest (by decide) "A" (by decide) 0 (by decide)

/-- A one-nurse, one-day request with both percentage parameters set to 50. -/
def wInput7 : SchedInput :=
  ⟨["A"], [], 0, 0, fun _ => [], 0, 0, 50, 50, 168, 0, ""⟩

/-- The all-`AM` assignment. -/
def wSolAM : Sol := fun _ _ s => decide (s = Shift.AM)

/-- C7 witness: the scaled-integer AM-coverage inequality at the concrete
satisfying assignment. -/
theorem pct_coverage_scaled_witness :
    wInput7.minAmCoverage * workingCount wSolAM (nursesOf wInput7) 0 ≤
      100 * shiftCount wSolAM (nursesOf wInput7) 0 Shift.AM :=
  (pct_coverage_scaled wInput7 wSolAM 0 (by decide)).1 (by decide) (by decide)

/-- A three-senior, one-day request demanding one nurse and one senior on each
working shift. -/
def wInput8 : SchedInput :=
  ⟨["A", "B", "C"], [], 0, 0, fun _ => [], 1, 1, 0, 0, 168, 0, ""⟩

/-- The assignment spreading the three seniors over `AM`, `PM`, `Night`. -/
def wSol8 : Sol := fun n _ s =>
  (decide (n = "A") && decide (s = Shift.AM)) ||
  (decide (n = "B") && decide (s = Shift.PM)) ||
  (decide (n = "C") && decide (s = Shift.Night))

/-- C8 witness: the coverage minimums hold on `AM` of the single day. -/
theorem shift_coverage_minimums_witness :
    wInput8.minNursesPerShift ≤ shiftCount wSol8 (nursesOf wInput8) 0 Shift.AM ∧
      wInput8.minSeniorsPerShift ≤ shiftCount wSol8 wInput8.seniors 0 Shift.AM :=
  shift_coverage_minimums wInput8 wSol8 (by decide) 0 (by decide) Shift.AM (by decide)
